import Mathlib

/-!
Shallow embedding of the go-okta HTTP client core (client.go, ratelimit.go,
errors.go) and proofs of the specification claims about it.

Modelling conventions:
- Go strings are Lean `String`s; the iteration primitives of the Go standard
  library (`strings.Split`, `strings.TrimSpace`, prefix/suffix tests,
  `strconv.Atoi` / `strconv.ParseInt`) are re-implemented structurally over
  `List Char` so that concrete computations reduce in the kernel.
- `time.Time` is modelled as an `Int` of Unix seconds.  The zero `time.Time`
  (January 1, year 1 UTC) has Unix seconds -62135596800; `t1.Before t2` is
  `t1 < t2` on this scale, which is faithful at whole-second granularity
  (every time value the client constructs is a whole second).
- `net/http`'s `Header` (a map from canonical keys to value lists) is a list
  of key/value-list pairs with at most one entry per key looked up by the
  first match; `Header.Get` returns the first value.
- Response bodies are modelled at the level the client observes them:
  `empty`, a well-formed JSON document, or malformed bytes.  `encoding/json`
  is a standard-library collaborator; its object-field extraction is
  modelled directly on the JSON tree (exact-key match; Go additionally
  falls back to a case-insensitive match, which no key in this code needs).
- The network transport (`http.Client.Do`) and the caller's `context` are
  oracles passed to `Do` as explicit arguments: the transport's behaviour is
  an `Except TransportError HttpResponse`, the context carries the rate-limit
  category and its done/deadline state at the moment `Do` inspects it.
-/

namespace Okta

/-! ### String primitives (models of Go's strings/strconv functions) -/

/-- Model of `strings.Split(s, sep)` for a one-character separator:
splits at every occurrence, keeping empty pieces, and returns one piece
even for the empty string. -/
def splitCharAux (sep : Char) : List Char → List Char → List String
  | [], acc => [String.mk acc.reverse]
  | c :: cs, acc =>
    if c = sep then String.mk acc.reverse :: splitCharAux sep cs []
    else splitCharAux sep cs (c :: acc)

def splitChar (s : String) (sep : Char) : List String :=
  splitCharAux sep s.data []

/-- Whitespace as trimmed by `strings.TrimSpace` (the ASCII space class;
the rarer Unicode space runes are not modelled, no header in scope uses
them). -/
def isGoSpace (c : Char) : Bool :=
  c = ' ' || c = '\t' || c = '\n' || c = '\x0b' || c = '\x0c' || c = '\r'

/-- Model of `strings.TrimSpace`. -/
def goTrimSpace (s : String) : String :=
  String.mk (((s.data.dropWhile isGoSpace).reverse.dropWhile isGoSpace).reverse)

def listIsPre : List Char → List Char → Bool
  | [], _ => true
  | _ :: _, [] => false
  | a :: as, b :: bs => a = b && listIsPre as bs

/-- Model of `strings.HasPrefix s pre`. -/
def strHasPre (s pre : String) : Bool := listIsPre pre.data s.data

/-- Model of `strings.HasSuffix s suf`. -/
def strHasSuf (s suf : String) : Bool := listIsPre suf.data.reverse s.data.reverse

def int64Max : Int := 9223372036854775807
def int64Min : Int := -9223372036854775808

/-- Model of `strconv.ParseInt(s, 10, 64)` (and of `strconv.Atoi`, since
`int` is 64-bit) keeping only the returned value, as the code discards the
error: an optional sign followed by decimal digits parses to its value
clamped to the int64 range; anything else yields 0. -/
def goAtoi (s : String) : Int :=
  let (neg, ds) :=
    match s.data with
    | '+' :: r => (false, r)
    | '-' :: r => (true, r)
    | r => (false, r)
  if ds.isEmpty || !ds.all Char.isDigit then 0
  else
    let n : Nat := ds.foldl (fun a c => a * 10 + (c.toNat - 48)) 0
    let v : Int := if neg then -(n : Int) else (n : Int)
    if v > int64Max then int64Max
    else if v < int64Min then int64Min
    else v

/-! ### net/url collaborator models -/

/-- Model of `url.Parse` followed by `URL.String()` as used on the URLs of
`Link` header segments: parsing fails on ASCII control characters (Go's
"invalid control character in URL"), and serialisation is the identity for
the already-normalised URL strings the header carries (Go's exotic-URL
normalisation is not modelled). -/
def urlParseString (s : String) : Option String :=
  if s.data.any (fun c => c.toNat < 32 || c.toNat = 127) then none
  else some s

def takeUntilChar (sep : Char) : List Char → List Char
  | [] => []
  | c :: cs => if c = sep then [] else c :: takeUntilChar sep cs

def isSchemeChar (c : Char) : Bool :=
  c.isAlpha || c.isDigit || c = '+' || c = '-' || c = '.'

/-- Model of `net/url`'s `getScheme`: a scheme is an initial alphabetic
character followed by scheme characters up to a colon.  Returns whether a
scheme was found and the remainder. -/
def schemeSplit (cs : List Char) : Bool × List Char :=
  match cs with
  | [] => (false, [])
  | c :: _ =>
    if c.isAlpha then
      let pre := cs.takeWhile isSchemeChar
      match cs.drop pre.length with
      | ':' :: r => (true, r)
      | _ => (false, cs)
    else (false, cs)

def hexVal (c : Char) : Option Nat :=
  if '0' ≤ c && c ≤ '9' then some (c.toNat - 48)
  else if 'a' ≤ c && c ≤ 'f' then some (c.toNat - 87)
  else if 'A' ≤ c && c ≤ 'F' then some (c.toNat - 55)
  else none

/-- Percent-decoding as done by `URL.setPath`.  An invalid escape makes
Go's `url.Parse` fail (captured by `urlParses` below); on such inputs
this function keeps the `%` literally, but `NewClient` never consults the
path there — it panics first. -/
def unescapeChars : List Char → List Char
  | [] => []
  | '%' :: h1 :: h2 :: rest2 =>
    match hexVal h1, hexVal h2 with
    | some a, some b => Char.ofNat (16 * a + b) :: unescapeChars rest2
    | _, _ => '%' :: unescapeChars (h1 :: h2 :: rest2)
  | c :: cs => c :: unescapeChars cs

/-- Model of the `Path` field of `url.Parse s`: drop the fragment, split
off a scheme, drop the query; a rootless rest under a scheme is Opaque
(empty path); a `//`-led rest loses its authority; what remains is the
percent-decoded path. -/
def urlPath (s : String) : String :=
  let cs := takeUntilChar '#' s.data
  let (hasScheme, rest0) := schemeSplit cs
  let rest1 := takeUntilChar '?' rest0
  if hasScheme && rest1.head? ≠ some '/' then ""
  else if (hasScheme || !listIsPre ['/', '/', '/'] rest1) &&
          listIsPre ['/', '/'] rest1 then
    let after := rest1.drop 2
    String.mk (unescapeChars (after.drop ((after.takeWhile (· ≠ '/')).length)))
  else String.mk (unescapeChars rest1)

/-! #### Success of `url.Parse`

`NewClient` discards `url.Parse`'s error and then dereferences the
returned `*url.URL`; when parsing failed that pointer is nil and the
program panics.  `urlParses` models the error conditions of
`url.Parse(s)` (it never errors otherwise): an ASCII control character
before the fragment, a leading colon ("missing protocol scheme"), a colon
in the first segment of a schemeless relative path, a malformed authority
(invalid port, missing `]`, a host character or percent-escape rejected
by the host/zone tables), an invalid percent-escape in the userinfo, the
path or the fragment. -/

/-- Control bytes rejected by `url.Parse` before the fragment. -/
def isCTL (c : Char) : Bool :=
  c.toNat < 0x20 || c.toNat = 0x7f

/-- The characters after the first occurrence of `sep` (all of Go's
`split(s, sep, true)` second half); `[]` when `sep` is absent. -/
def dropThroughChar (sep : Char) : List Char → List Char
  | [] => []
  | c :: cs => if c = sep then cs else dropThroughChar sep cs

def afterLastChar (sep : Char) (cs : List Char) : List Char :=
  (cs.reverse.takeWhile (· ≠ sep)).reverse

def beforeLastChar (sep : Char) (cs : List Char) : List Char :=
  ((cs.reverse.dropWhile (· ≠ sep)).drop 1).reverse

/-- Whether `pat` occurs as a contiguous run. -/
def containsSeq (pat : List Char) : List Char → Bool
  | [] => listIsPre pat []
  | c :: cs => listIsPre pat (c :: cs) || containsSeq pat cs

/-- The prefix before the first occurrence of `pat` (everything when
absent). -/
def beforeSeq (pat : List Char) : List Char → List Char
  | [] => []
  | c :: cs => if listIsPre pat (c :: cs) then [] else c :: beforeSeq pat cs

/-- The suffix from the first occurrence of `pat` (`[]` when absent). -/
def fromSeq (pat : List Char) : List Char → List Char
  | [] => []
  | c :: cs => if listIsPre pat (c :: cs) then c :: cs else fromSeq pat cs

/-- `unescape`'s escape validity for the path, fragment and userinfo
modes: every `%` must be followed by two hex digits (no raw-character
restrictions in those modes). -/
def validEscapes : List Char → Bool
  | '%' :: h1 :: h2 :: rest =>
    (hexVal h1).isSome && (hexVal h2).isSome && validEscapes rest
  | '%' :: _ => false
  | _ :: rest => validEscapes rest
  | [] => true

/-- `validOptionalPort`: empty, or a colon followed by decimal digits. -/
def validOptionalPort (port : List Char) : Bool :=
  match port with
  | [] => true
  | ':' :: digits => digits.all Char.isDigit
  | _ => false

/-- The raw characters `shouldEscape` admits in a host (and zone):
alphanumerics, the sub-delimiters plus `:[]<>"`, `-_.~`, and any
non-ASCII byte. -/
def hostExtraChars : List Char :=
  ['-', '_', '.', '~', '!', '$', '&', '\'', '(', ')', '*', '+', ',', ';', '=',
   ':', '[', ']', '<', '>', '"']

def isHostChar (c : Char) : Bool :=
  c.isAlpha || c.isDigit || 128 ≤ c.toNat || hostExtraChars.contains c

/-- Whether a percent-escaped byte may appear raw in a host per
`shouldEscape(…, encodeHost)` (ASCII only). -/
def isHostByteAllowed (n : Nat) : Bool :=
  n < 128 &&
    (let c := Char.ofNat n
     c.isAlpha || c.isDigit || hostExtraChars.contains c)

/-- `unescape(…, encodeHost)`: raw characters from the host table; a
percent-escape must be a valid hex pair that is either `%25` or encodes a
byte ≥ 0x80. -/
def hostCharsOk : List Char → Bool
  | '%' :: h1 :: h2 :: rest =>
    match hexVal h1, hexVal h2 with
    | some a, some b => (8 ≤ a || (a = 2 && b = 5)) && hostCharsOk rest
    | _, _ => false
  | '%' :: _ => false
  | c :: rest => isHostChar c && hostCharsOk rest
  | [] => true

/-- `unescape(…, encodeZone)`: as the host, but an escape must be `%25`,
an escaped space, or an escaped byte from the host table. -/
def zoneCharsOk : List Char → Bool
  | '%' :: h1 :: h2 :: rest =>
    match hexVal h1, hexVal h2 with
    | some a, some b =>
      ((a = 2 && b = 5) || 16 * a + b = 32 || isHostByteAllowed (16 * a + b)) &&
        zoneCharsOk rest
    | _, _ => false
  | '%' :: _ => false
  | c :: rest => isHostChar c && zoneCharsOk rest
  | [] => true

/-- `parseHost`: a `[`-led host needs a closing `]` and a valid optional
port after it, with the `%25`-introduced zone checked by the zone table;
otherwise everything from the last colon must be a valid port; the whole
host is then unescaped in host mode. -/
def hostOk (host : List Char) : Bool :=
  if host.head? = some '[' then
    if host.contains ']' then
      let beforeBracket := beforeLastChar ']' host
      validOptionalPort (afterLastChar ']' host) &&
        (if containsSeq ['%', '2', '5'] beforeBracket then
          hostCharsOk (beforeSeq ['%', '2', '5'] beforeBracket) &&
            zoneCharsOk (fromSeq ['%', '2', '5'] beforeBracket) &&
            hostCharsOk (']' :: afterLastChar ']' host)
        else hostCharsOk host)
    else false
  else
    (!host.contains ':' || validOptionalPort (':' :: afterLastChar ':' host)) &&
      hostCharsOk host

/-- `validUserinfo`'s character table (ASCII only). -/
def userinfoExtraChars : List Char :=
  ['-', '.', '_', ':', '~', '!', '$', '&', '\'', '(', ')', '*', '+', ',', ';',
   '=', '%', '@']

def isUserinfoChar (c : Char) : Bool :=
  c.isAlpha || c.isDigit || userinfoExtraChars.contains c

/-- Userinfo validation: `validUserinfo` on the raw characters plus
escape validity of the user/password unescape. -/
def userinfoOk (ui : List Char) : Bool :=
  ui.all isUserinfoChar && validEscapes ui

/-- `parseAuthority`: the part after the last `@` is the host, the part
before it the userinfo. -/
def parseAuthorityOk (authority : List Char) : Bool :=
  if authority.contains '@' then
    userinfoOk (beforeLastChar '@' authority) && hostOk (afterLastChar '@' authority)
  else hostOk authority

/-- Whether `url.Parse s` succeeds, following `Parse`/`parse`/`getScheme`:
cut the fragment; reject control characters before it; accept the literal
`*`; reject a leading colon; split a scheme and cut the query; a rootless
rest under a scheme is opaque (accepted as is); a schemeless rootless
rest may not have a colon in its first segment; a `//`-led rest must
carry a well-formed authority; finally the path and the fragment must
percent-decode. -/
def urlParses (s : String) : Bool :=
  let cs := takeUntilChar '#' s.data
  let frag := dropThroughChar '#' s.data
  if cs.any isCTL then false
  else if cs = ['*'] then validEscapes frag
  else if cs.head? = some ':' then false
  else
    let (hasScheme, rest0) := schemeSplit cs
    let rest1 := takeUntilChar '?' rest0
    if !listIsPre ['/'] rest1 && hasScheme then
      validEscapes frag
    else if !listIsPre ['/'] rest1 && (takeUntilChar '/' rest1).contains ':' then
      false
    else
      let useAuth := (hasScheme || !listIsPre ['/', '/', '/'] rest1) &&
        listIsPre ['/', '/'] rest1
      let after := rest1.drop 2
      let authority := after.takeWhile (· ≠ '/')
      let rest2 := if useAuth then after.drop authority.length else rest1
      (!useAuth || parseAuthorityOk authority) &&
        validEscapes rest2 && validEscapes frag

/-! ### HTTP data model -/

/-- `net/http.Header`: canonical-key map to value lists, as an association
list with at most one entry per key (lookup takes the first match). -/
def HeaderMap := List (String × List String)

instance : DecidableEq HeaderMap := by
  unfold HeaderMap
  infer_instance

/-- Model of `http.Header.Get`: first value stored under the (canonical)
key, or `""`. -/
def headerGet (h : HeaderMap) (key : String) : String :=
  match h.find? (fun p => p.1 = key) with
  | some (_, v :: _) => v
  | _ => ""

/-- Direct map index `header[key]` as used on the `Link` header: the whole
value list, `[]` when absent. -/
def headerValues (h : HeaderMap) (key : String) : List String :=
  match h.find? (fun p => p.1 = key) with
  | some (_, vs) => vs
  | none => []

/-- Model of `http.Header.Set`. -/
def headerSet (h : HeaderMap) (key value : String) : HeaderMap :=
  (h.filter (fun p => p.1 ≠ key)) ++ [(key, [value])]

/-- A JSON document, the parse tree `encoding/json` works on. -/
inductive Json where
  | null : Json
  | bool (b : Bool) : Json
  | num (n : Int) : Json
  | str (s : String) : Json
  | arr (elems : List Json) : Json
  | obj (fields : List (String × Json)) : Json

/-- A response body as the client observes it: empty, a well-formed JSON
document, or malformed bytes (the raw text).  This is the read-out of the
`io.ReadCloser` stream. -/
inductive BodyContent where
  | empty : BodyContent
  | json (j : Json) : BodyContent
  | invalid (raw : String) : BodyContent

structure HttpRequest where
  Method : String := "GET"
  URL : String := ""
  Header : HeaderMap := []
deriving DecidableEq

/-- `http.Response`, restricted to the fields this client reads or
writes. -/
structure HttpResponse where
  Status : String := ""
  StatusCode : Nat := 0
  Header : HeaderMap := []
  Body : BodyContent := .empty
  Request : Option HttpRequest := none

/-! ### Rate-limit model (ratelimit.go) -/

/-- Unix seconds of Go's zero `time.Time` (January 1, year 1 UTC). -/
def zeroTimeUnix : Int := -62135596800

/-- `Timestamp` wraps a `time.Time`; modelled as that instant's Unix
seconds.  The zero value is the zero time. -/
structure Timestamp where
  Time : Int := zeroTimeUnix
deriving DecidableEq

/-- Rate represents the status of an individual rate limit. -/
structure Rate where
  Limit : Int := 0
  Remaining : Int := 0
  Reset : Timestamp := {}
deriving DecidableEq

/-- The Go zero value of `Rate`. -/
def Rate.zero : Rate := {}

/-- Number of rate-limit categories (the `categories` constant). -/
def categories : Nat := 12

/-- `rateLimitCategory`: one of the `categories` enumerated buckets. -/
abbrev rateLimitCategory := Fin categories

instance : NeZero categories := ⟨by decide⟩

/-! ### Pagination and error types (client.go, errors.go) -/

/-- Pagination represents the pagination primitives of the Okta API. -/
structure Pagination where
  Prev : String := ""
  Next : String := ""
  Self : String := ""
deriving DecidableEq

/-- ErrorCause represents one cause for an error. -/
structure ErrorCause where
  Summary : String := ""
deriving DecidableEq

/-- ErrorResponse represents a response from the Okta API when an error
occurs. -/
structure ErrorResponse where
  Response : HttpResponse
  Code : String := ""
  Summary : String := ""
  Link : String := ""
  ID : String := ""
  Causes : List ErrorCause := []

/-- RateLimitError represents an error when rate limits are exceeded. -/
structure RateLimitError where
  Rate : Rate
  Response : HttpResponse
  Message : String := ""

/-! ### encoding/json collaborator model for ErrorResponse -/

/-- `json.Unmarshal` of one element of `errorCauses` into an `ErrorCause`:
object fields are scanned in order (later duplicates overwrite), the
`errorSummary` string field is kept, mismatched or unknown fields are
skipped. -/
def unmarshalErrorCause (j : Json) (init : ErrorCause) : ErrorCause :=
  match j with
  | .obj fs =>
    fs.foldl
      (fun ec kv =>
        match kv with
        | ("errorSummary", .str s) => { ec with Summary := s }
        | _ => ec)
      init
  | _ => init

/-- One key/value pair of the error object applied to the
`ErrorResponse` being filled: the tagged string fields and the
`errorCauses` array are set, mismatched values and unknown keys are
skipped. -/
def unmarshalErrorField (er : ErrorResponse) (kv : String × Json) : ErrorResponse :=
  match kv with
  | ("errorCode", .str s) => { er with Code := s }
  | ("errorSummary", .str s) => { er with Summary := s }
  | ("errorLink", .str s) => { er with Link := s }
  | ("errorId", .str s) => { er with ID := s }
  | ("errorCauses", .arr es) =>
    { er with Causes := es.map (fun e => unmarshalErrorCause e {}) }
  | _ => er

/-- `json.Unmarshal(data, &errorResponse)` with the error discarded: a
non-object document (or an empty/malformed body) leaves every field at its
zero value; an object's fields are applied in order, so a later duplicate
key overwrites an earlier one. -/
def unmarshalErrorResponse (b : BodyContent) (init : ErrorResponse) : ErrorResponse :=
  match b with
  | .json (.obj fs) => fs.foldl unmarshalErrorField init
  | _ => init

/-! ### Header constants and parseRate (client.go) -/

def headerRateLimit : String := "X-Rate-Limit-Limit"
def headerRateRemaining : String := "X-Rate-Limit-Remaining"
def headerRateReset : String := "X-Rate-Limit-Reset"
def headerRequestID : String := "X-Okta-Request-Id"

/-- `parseRate`: read the three rate headers out of a response.  A missing
header leaves the zero value; `Atoi`/`ParseInt` errors are discarded; the
reset timestamp is only set when the parsed value is non-zero
(`time.Unix(v, 0)` = Unix seconds `v`). -/
def parseRate (r : HttpResponse) : Rate :=
  let rate : Rate := {}
  let rate :=
    if headerGet r.Header headerRateLimit ≠ "" then
      { rate with Limit := goAtoi (headerGet r.Header headerRateLimit) }
    else rate
  let rate :=
    if headerGet r.Header headerRateRemaining ≠ "" then
      { rate with Remaining := goAtoi (headerGet r.Header headerRateRemaining) }
    else rate
  if headerGet r.Header headerRateReset ≠ "" then
    let v := goAtoi (headerGet r.Header headerRateReset)
    if v ≠ 0 then { rate with Reset := { Time := v } } else rate
  else rate

/-! ### populatePageValues (client.go) -/

/-- Processing of one value of the `Link` header by `populatePageValues`:
split on `;`; skip the value if it has fewer than two segments, if its
first segment is not wrapped in angle brackets, or if the URL between the
brackets does not parse; otherwise trim each later segment and bind the
serialised URL to the matching `rel` relation (last match wins). -/
def processLinkValue (p : Pagination) (link : String) : Pagination :=
  let segments := splitChar (goTrimSpace link) ';'
  match segments with
  | [] => p
  | seg0 :: rest =>
    if rest.isEmpty then p
    else if !(strHasPre seg0 "<" && strHasSuf seg0 ">") then p
    else
      match urlParseString (String.mk (seg0.data.drop 1).dropLast) with
      | none => p
      | some url =>
        rest.foldl
          (fun p segment =>
            let t := goTrimSpace segment
            if t = "rel=\"next\"" then { p with Next := url }
            else if t = "rel=\"prev\"" then { p with Prev := url }
            else if t = "rel=\"self\"" then { p with Self := url }
            else p)
          p

/-- `populatePageValues` parses the (possibly multi-valued) `Link`
response header into the pagination fields, starting from the empty
`Pagination` that `Do` installs just before calling it. -/
def populatePageValues (r : HttpResponse) : Pagination :=
  (headerValues r.Header "Link").foldl processLinkValue {}

/-! ### Client, context and transport oracles -/

/-- The opaque `*http.Client` transport handle held by the client (its
behaviour is supplied to `Do` separately, as an oracle). -/
structure HTTPClient where
  tag : Nat := 0
deriving DecidableEq

/-- `http.DefaultClient`. -/
def HTTPClient.defaultClient : HTTPClient := {}

/-- The Okta API client (the fields the claims touch: the token, the
user agent, the parsed base URL's path, the transport handle, and the
per-category rate-limit table guarded by `rateMu` — the lock itself is
invisible at this level, every table access in the code is a single
lock-protected read or write). -/
structure Client where
  apiToken : String
  UserAgent : String := "go-okta"
  baseURLRaw : String := ""
  baseURLPath : String := ""
  httpClient : HTTPClient := {}
  rateLimits : rateLimitCategory → Rate := fun _ => {}

/-- The caller's `context.Context` as `Do` observes it: the rate-limit
category stored under `rateLimitCategoryCtxKey`, and whether `ctx.Done()`
had fired (with the deadline flag distinguishing `ctx.Err()`'s kind) at
the moment `Do` inspects it after a transport failure. -/
structure Ctx where
  category : rateLimitCategory
  done : Bool := false
  deadlineExceeded : Bool := false

inductive CtxErrKind where
  | canceled : CtxErrKind
  | deadlineExceeded : CtxErrKind
deriving DecidableEq

/-- `ctx.Err()` once `ctx.Done()` has fired. -/
def Ctx.errKind (ctx : Ctx) : CtxErrKind :=
  if ctx.deadlineExceeded then .deadlineExceeded else .canceled

/-- A transport-level failure returned by `http.Client.Do`.  (`Do`'s
`*url.Error` branch re-serialises the error's URL string; no claim
observes that string, so the error value is carried unchanged here.) -/
structure TransportError where
  message : String := ""
deriving DecidableEq

/-- The `error` values `Client.Do` can return. -/
inductive DoError where
  | rateLimit (e : RateLimitError) : DoError
  | api (e : ErrorResponse) : DoError
  | ctxError (k : CtxErrKind) : DoError
  | transport (e : TransportError) : DoError
  | decodeError (raw : String) : DoError

/-- Response represents a response from the Okta API. -/
structure Response where
  Response : HttpResponse
  Pagination : Pagination := {}
  Rate : Rate := {}
  OktaRequestID : String := ""

/-! ### checkRateLimitBeforeDo and checkResponseForErrors (client.go) -/

/-- `checkRateLimitBeforeDo`: no network call; if the stored rate for the
category has no calls remaining and the current time is before its reset
time, return a `RateLimitError` wrapping a synthetic 403 response so that
`Do` can skip the network round trip; otherwise return nothing.
(`http.StatusText(403)` is `"Forbidden"`; Go renders the message's reset
time via `%v`, modelled here by its Unix seconds.)

The fake response and `RateLimitError` built on a hit: -/
def syntheticRateLimitError (rate : Rate) (req : HttpRequest) : RateLimitError :=
  { Rate := rate
    Response :=
      { Status := "Forbidden"
        StatusCode := 403
        Request := some req
        Header := []
        Body := .empty }
    Message := "API rate limit of " ++ toString rate.Limit ++
      " still exceeded until " ++ toString rate.Reset.Time ++
      ", not making remote request." }

def checkRateLimitBeforeDo (c : Client) (req : HttpRequest)
    (category : rateLimitCategory) (now : Int) : Option RateLimitError :=
  let rate := c.rateLimits category
  if rate.Remaining = 0 ∧ now < rate.Reset.Time then
    some (syntheticRateLimitError rate req)
  else none

/-- `checkResponseForErrors`: a 2xx status is no error; otherwise the body
is read in full and unmarshalled into an `ErrorResponse` (read and parse
failures silently ignored); a 403 whose `X-Rate-Limit-Remaining` header is
`"0"` becomes a `RateLimitError` carrying the re-parsed rate, anything
else the `ErrorResponse` itself. -/
def checkResponseForErrors (r : HttpResponse) : Option DoError :=
  if 200 ≤ r.StatusCode ∧ r.StatusCode ≤ 299 then none
  else
    let errorResponse := unmarshalErrorResponse r.Body { Response := r }
    if r.StatusCode = 403 ∧ headerGet r.Header headerRateRemaining = "0" then
      some (.rateLimit { Rate := parseRate r, Response := errorResponse.Response })
    else some (.api errorResponse)

/-! ### Do (client.go) -/

/-- The decode target `v` handed to `Do`: absent (`nil`), an `io.Writer`,
or an ordinary value decoded from JSON. -/
inductive DecodeTarget where
  | noTarget : DecodeTarget
  | writer : DecodeTarget
  | jsonValue : DecodeTarget
deriving DecidableEq

/-- The body-consumption step at the end of `Do`: nothing to do without a
target; `io.Copy` into a writer discards its error; JSON decoding of an
empty body yields `io.EOF`, which is swallowed; malformed bytes yield the
decoder's error.  (Decoding a well-formed document into the target is
modelled as succeeding; Go could additionally fail on a type mismatch with
the target, which no claim exercises.) -/
def decodeBody : DecodeTarget → BodyContent → Option DoError
  | .noTarget, _ => none
  | .writer, _ => none
  | .jsonValue, .empty => none
  | .jsonValue, .json _ => none
  | .jsonValue, .invalid raw => some (.decodeError raw)

/-- The outcome of one call to `Client.Do`: the returned `*Response` and
`error`, the post-state of the client, and whether the HTTP transport was
invoked. -/
structure DoOutcome where
  resp : Option Response
  err : Option DoError
  client : Client
  networkCalled : Bool

/-- `Client.Do`: set the `Authorization` header, read the category out of
the context, run the preemptive rate check (returning its synthetic
response and error without touching the network on a hit); otherwise
invoke the transport.  On a transport failure prefer `ctx.Err()` when the
context is done, else return the (URL-cleaned) transport error.  On
success parse the rate headers, store them in the table for this category
under the lock, build the `Response` (pagination, rate, request id),
classify the status, and finally decode the body into the target. -/
def Do (c : Client) (ctx : Ctx) (req0 : HttpRequest) (v : DecodeTarget)
    (transport : Except TransportError HttpResponse) (now : Int) : DoOutcome :=
  let req := { req0 with Header := headerSet req0.Header "Authorization" ("SSWS " ++ c.apiToken) }
  let category := ctx.category
  match checkRateLimitBeforeDo c req category now with
  | some e =>
    { resp := some { Response := e.Response, Rate := e.Rate }
      err := some (.rateLimit e)
      client := c
      networkCalled := false }
  | none =>
    match transport with
    | .error te =>
      if ctx.done then
        { resp := none, err := some (.ctxError ctx.errKind), client := c, networkCalled := true }
      else
        { resp := none, err := some (.transport te), client := c, networkCalled := true }
    | .ok resp =>
      let rateLimit := parseRate resp
      let c' : Client :=
        { c with rateLimits := fun cat => if cat = category then rateLimit else c.rateLimits cat }
      let response : Response :=
        { Response := resp
          Pagination := populatePageValues resp
          Rate := rateLimit
          OktaRequestID := headerGet resp.Header headerRequestID }
      match checkResponseForErrors resp with
      | some e => { resp := some response, err := some e, client := c', networkCalled := true }
      | none =>
        { resp := some response
          err := decodeBody v resp.Body
          client := c'
          networkCalled := true }

/-! ### NewClient (client.go) -/

/-- The validation errors `NewClient` can return (their messages: "API
Token is not present", "Base URL is not present", "BaseURL must have a
trailing slash, but %q does not"). -/
inductive NewClientError where
  | apiTokenNotPresent : NewClientError
  | baseURLNotPresent : NewClientError
  | noTrailingSlash (u : String) : NewClientError
deriving DecidableEq

/-- What a call to `NewClient` can do: return a client, return a
validation error, or crash — `baseURL, _ := url.Parse(paramBaseURL)`
discards the parse error, so when parsing fails `baseURL` is nil and the
following `baseURL.Path` dereference panics. -/
inductive NewClientOutcome where
  | ok (c : Client) : NewClientOutcome
  | err (e : NewClientError) : NewClientOutcome
  | panics : NewClientOutcome

/-- `NewClient`: reject an empty token or an empty base URL string; parse
the base URL discarding the parse error (a nil-dereference panic when
`url.Parse` fails, the `urlParses` model); reject the parsed URL unless
its *path component* ends in `/`; fall back to `http.DefaultClient` when
no transport is supplied.  The rate table starts at its zero value. -/
def NewClient (apiToken paramBaseURL : String) (httpClient : Option HTTPClient) :
    NewClientOutcome :=
  if apiToken.length = 0 then .err .apiTokenNotPresent
  else if paramBaseURL.length = 0 then .err .baseURLNotPresent
  else if !urlParses paramBaseURL then .panics
  else
    let path := urlPath paramBaseURL
    if !strHasSuf path "/" then .err (.noTrailingSlash paramBaseURL)
    else
      .ok
        { apiToken := apiToken
          UserAgent := "go-okta"
          baseURLRaw := paramBaseURL
          baseURLPath := path
          httpClient := httpClient.getD HTTPClient.defaultClient
          rateLimits := fun _ => {} }

/-! ### Claim C5: NewClient validation -/

/-- C5 counterexample: `"https://x#/"` ends in `/` and both inputs are
non-empty, so the claim says construction succeeds — but the code checks
the trailing slash on the parsed URL's *path component* (empty here, the
`/` is in the fragment) and fails with the validation error. -/
theorem newClient_trailing_slash_counterexample :
    "t" ≠ "" ∧ "https://x#/" ≠ "" ∧ strHasSuf "https://x#/" "/" = true ∧
    NewClient "t" "https://x#/" none = .err (.noTrailingSlash "https://x#/") :=
  ⟨by decide, by decide, by decide, rfl⟩

lemma string_length_eq_zero_iff (s : String) : s.length = 0 ↔ s = "" := by
  constructor
  · intro h
    cases s with
    | mk data =>
      cases data with
      | nil => rfl
      | cons c cs => simp [String.length] at h
  · rintro rfl
    rfl

/-- C5 (amended): construction fails with a validation error exactly when
the API token is empty, the base URL string is empty, or the base URL
parses and the *path component* of the parsed URL does not end in `/`
(not the URL string itself); when both inputs are non-empty but
`url.Parse` rejects the base URL, the code panics instead (the parse
error is discarded and a nil URL dereferenced); otherwise a client is
returned that uses the supplied transport or `http.DefaultClient` when
none is given, keeps the token, stores the parsed path, and starts every
category's rate at the zero value. -/
theorem newClient_validation (token url : String) (hc : Option HTTPClient) :
    ((∃ cl, NewClient token url hc = .ok cl) ↔
      (token ≠ "" ∧ url ≠ "" ∧ urlParses url = true ∧
        strHasSuf (urlPath url) "/" = true)) ∧
    ((∃ e, NewClient token url hc = .err e) ↔
      (token = "" ∨ url = "" ∨
        (urlParses url = true ∧ strHasSuf (urlPath url) "/" = false))) ∧
    (NewClient token url hc = .panics ↔
      (token ≠ "" ∧ url ≠ "" ∧ urlParses url = false)) ∧
    (∀ cl, NewClient token url hc = .ok cl →
      cl.httpClient = hc.getD HTTPClient.defaultClient ∧
      cl.apiToken = token ∧
      cl.baseURLPath = urlPath url ∧
      (∀ cat, cl.rateLimits cat = {})) := by
  by_cases ht : token.length = 0
  · have htok : token = "" := (string_length_eq_zero_iff token).mp ht
    have hnc : NewClient token url hc = .err .apiTokenNotPresent := by
      simp only [NewClient]
      rw [if_pos ht]
    refine ⟨⟨?_, ?_⟩, ⟨?_, ?_⟩, ⟨?_, ?_⟩, ?_⟩
    · rintro ⟨cl, hcl⟩
      rw [hnc] at hcl
      exact NewClientOutcome.noConfusion hcl
    · rintro ⟨hne, -, -, -⟩
      exact absurd htok hne
    · intro _
      exact Or.inl htok
    · intro _
      exact ⟨_, hnc⟩
    · intro h
      rw [hnc] at h
      exact NewClientOutcome.noConfusion h
    · rintro ⟨hne, -, -⟩
      exact absurd htok hne
    · intro cl hcl
      rw [hnc] at hcl
      exact NewClientOutcome.noConfusion hcl
  · have htok : token ≠ "" := fun he => ht ((string_length_eq_zero_iff token).mpr he)
    by_cases hu : url.length = 0
    · have hurl : url = "" := (string_length_eq_zero_iff url).mp hu
      have hnc : NewClient token url hc = .err .baseURLNotPresent := by
        simp only [NewClient]
        rw [if_neg ht, if_pos hu]
      refine ⟨⟨?_, ?_⟩, ⟨?_, ?_⟩, ⟨?_, ?_⟩, ?_⟩
      · rintro ⟨cl, hcl⟩
        rw [hnc] at hcl
        exact NewClientOutcome.noConfusion hcl
      · rintro ⟨-, hne, -, -⟩
        exact absurd hurl hne
      · intro _
        exact Or.inr (Or.inl hurl)
      · intro _
        exact ⟨_, hnc⟩
      · intro h
        rw [hnc] at h
        exact NewClientOutcome.noConfusion h
      · rintro ⟨-, hne, -⟩
        exact absurd hurl hne
      · intro cl hcl
        rw [hnc] at hcl
        exact NewClientOutcome.noConfusion hcl
    · have hurl : url ≠ "" := fun he => hu ((string_length_eq_zero_iff url).mpr he)
      by_cases hp : urlParses url = true
      · by_cases hs : strHasSuf (urlPath url) "/" = true
        · have hnc : NewClient token url hc =
              .ok { apiToken := token
                    UserAgent := "go-okta"
                    baseURLRaw := url
                    baseURLPath := urlPath url
                    httpClient := hc.getD HTTPClient.defaultClient
                    rateLimits := fun _ => {} } := by
            simp only [NewClient]
            rw [if_neg ht, if_neg hu, hp, hs]
            simp
          refine ⟨⟨?_, ?_⟩, ⟨?_, ?_⟩, ⟨?_, ?_⟩, ?_⟩
          · intro _
            exact ⟨htok, hurl, hp, hs⟩
          · intro _
            exact ⟨_, hnc⟩
          · rintro ⟨e, he⟩
            rw [hnc] at he
            exact NewClientOutcome.noConfusion he
          · rintro (he | he | ⟨-, hsf⟩)
            · exact absurd he htok
            · exact absurd he hurl
            · rw [hs] at hsf
              exact Bool.noConfusion hsf
          · intro h
            rw [hnc] at h
            exact NewClientOutcome.noConfusion h
          · rintro ⟨-, -, hp'⟩
            rw [hp] at hp'
            exact Bool.noConfusion hp'
          · intro cl hcl
            rw [hnc] at hcl
            injection hcl with h'
            subst h'
            exact ⟨rfl, rfl, rfl, fun cat => rfl⟩
        · have hbf : strHasSuf (urlPath url) "/" = false := by
            cases hb : strHasSuf (urlPath url) "/" <;> simp_all
          have hnc : NewClient token url hc = .err (.noTrailingSlash url) := by
            simp only [NewClient]
            rw [if_neg ht, if_neg hu, hp, hbf]
            simp
          refine ⟨⟨?_, ?_⟩, ⟨?_, ?_⟩, ⟨?_, ?_⟩, ?_⟩
          · rintro ⟨cl, hcl⟩
            rw [hnc] at hcl
            exact NewClientOutcome.noConfusion hcl
          · rintro ⟨-, -, -, hs'⟩
            exact absurd hs' hs
          · intro _
            exact Or.inr (Or.inr ⟨hp, hbf⟩)
          · intro _
            exact ⟨_, hnc⟩
          · intro h
            rw [hnc] at h
            exact NewClientOutcome.noConfusion h
          · rintro ⟨-, -, hp'⟩
            rw [hp] at hp'
            exact Bool.noConfusion hp'
          · intro cl hcl
            rw [hnc] at hcl
            exact NewClientOutcome.noConfusion hcl
      · have hpf : urlParses url = false := by
          cases hb : urlParses url <;> simp_all
        have hnc : NewClient token url hc = .panics := by
          simp only [NewClient]
          rw [if_neg ht, if_neg hu, hpf]
          simp
        refine ⟨⟨?_, ?_⟩, ⟨?_, ?_⟩, ⟨?_, ?_⟩, ?_⟩
        · rintro ⟨cl, hcl⟩
          rw [hnc] at hcl
          exact NewClientOutcome.noConfusion hcl
        · rintro ⟨-, -, hp', -⟩
          exact absurd hp' hp
        · rintro ⟨e, he⟩
          rw [hnc] at he
          exact NewClientOutcome.noConfusion he
        · rintro (he | he | ⟨hp', -⟩)
          · exact absurd he htok
          · exact absurd he hurl
          · exact absurd hp' hp
        · intro _
          exact ⟨htok, hurl, hpf⟩
        · intro _
          exact hnc
        · intro cl hcl
          rw [hnc] at hcl
          exact NewClientOutcome.noConfusion hcl

/-- The client built by a valid construction. -/
def wNewClient : Client :=
  { apiToken := "t"
    UserAgent := "go-okta"
    baseURLRaw := "https://okta.example.com/"
    baseURLPath := "/"
    httpClient := HTTPClient.defaultClient
    rateLimits := fun _ => {} }

theorem newClient_validation_witness :
    ("t" ≠ "" ∧ "https://okta.example.com/" ≠ "" ∧
      urlParses "https://okta.example.com/" = true ∧
      strHasSuf (urlPath "https://okta.example.com/") "/" = true) ∧
    NewClient "t" "https://okta.example.com/" none = .ok wNewClient ∧
    wNewClient.httpClient = (none : Option HTTPClient).getD HTTPClient.defaultClient ∧
    wNewClient.rateLimits 0 = {} ∧
    NewClient "t" ":/" none = .panics :=
  ⟨⟨by decide, by decide, by decide, by decide⟩, rfl,
    ((newClient_validation "t" "https://okta.example.com/" none).2.2.2 wNewClient rfl).1,
    ((newClient_validation "t" "https://okta.example.com/" none).2.2.2 wNewClient rfl).2.2.2 0,
    (newClient_validation "t" ":/" none).2.2.1.mpr ⟨by decide, by decide, by decide⟩⟩

/-! ### Claim C1: preemptive short-circuit on an exhausted rate limit -/

/-- C1: whenever the stored rate for the call's category has no calls
remaining and the current time is before its reset time, `Do` returns a
rate-limit error wrapping a synthetic 403 response without invoking the
HTTP transport (the outcome is the same for every transport oracle and
the network-called flag is false), within that same call. -/
theorem do_short_circuits_when_rate_exhausted
    (c : Client) (ctx : Ctx) (req : HttpRequest) (v : DecodeTarget)
    (transport : Except TransportError HttpResponse) (now : Int)
    (hrem : (c.rateLimits ctx.category).Remaining = 0)
    (hnow : now < (c.rateLimits ctx.category).Reset.Time) :
    (Do c ctx req v transport now).networkCalled = false ∧
    ∃ e : RateLimitError,
      (Do c ctx req v transport now).err = some (.rateLimit e) ∧
      e.Response.StatusCode = 403 ∧
      e.Rate = c.rateLimits ctx.category ∧
      (Do c ctx req v transport now).resp =
        some { Response := e.Response, Rate := e.Rate } := by
  unfold Do checkRateLimitBeforeDo
  simp only [hrem, hnow, and_self, if_pos, true_and]
  exact
    ⟨syntheticRateLimitError (c.rateLimits ctx.category)
        { req with Header := headerSet req.Header "Authorization" ("SSWS " ++ c.apiToken) },
      rfl, rfl, rfl, rfl⟩

def wRate : Rate := { Limit := 600, Remaining := 0, Reset := { Time := 1700000000 } }

def wClient : Client :=
  { apiToken := "tok"
    rateLimits := fun cat => if cat = (0 : Fin categories) then wRate else {} }

def wCtx : Ctx := { category := 0 }

def wReq : HttpRequest := { Method := "GET", URL := "https://dev.okta.com/api/v1/users" }

theorem do_short_circuits_when_rate_exhausted_witness :
    (wClient.rateLimits wCtx.category).Remaining = 0 ∧
    (1600000000 : Int) < (wClient.rateLimits wCtx.category).Reset.Time ∧
    ((Do wClient wCtx wReq .noTarget (.error {}) 1600000000).networkCalled = false ∧
     ∃ e : RateLimitError,
       (Do wClient wCtx wReq .noTarget (.error {}) 1600000000).err = some (.rateLimit e) ∧
       e.Response.StatusCode = 403 ∧
       e.Rate = wClient.rateLimits wCtx.category ∧
       (Do wClient wCtx wReq .noTarget (.error {}) 1600000000).resp =
         some { Response := e.Response, Rate := e.Rate }) :=
  ⟨by decide, by decide,
    do_short_circuits_when_rate_exhausted wClient wCtx wReq .noTarget (.error {})
      1600000000 (by decide) (by decide)⟩

/-! ### Claim C9: a zero reset time disables the preemptive check -/

/-- C9: when the stored rate's reset is the zero time value,
`checkRateLimitBeforeDo` returns nothing even with zero calls remaining
(the current time is never before year 1), so the call proceeds to the
network; and `parseRate` produces exactly that zero reset whenever the
`X-Rate-Limit-Reset` header is absent, or is malformed or `"0"` (parses
to 0). -/
theorem checkRateLimit_none_when_reset_zero
    (c : Client) (req : HttpRequest) (cat : rateLimitCategory) (now : Int)
    (hreset : (c.rateLimits cat).Reset.Time = zeroTimeUnix)
    (hnow : zeroTimeUnix ≤ now) :
    checkRateLimitBeforeDo c req cat now = none ∧
    (∀ r : HttpResponse, headerGet r.Header headerRateReset = "" →
      (parseRate r).Reset.Time = zeroTimeUnix) ∧
    (∀ r : HttpResponse, goAtoi (headerGet r.Header headerRateReset) = 0 →
      (parseRate r).Reset.Time = zeroTimeUnix) := by
  refine ⟨?_, ?_, ?_⟩
  · unfold checkRateLimitBeforeDo
    rw [if_neg]
    rintro ⟨-, hlt⟩
    rw [hreset] at hlt
    exact absurd hnow (not_le.mpr hlt)
  · intro r hr
    simp only [parseRate]
    rw [if_neg (by simp [hr])]
    split <;> split <;> rfl
  · intro r hr
    simp only [parseRate]
    by_cases hhdr : headerGet r.Header headerRateReset = ""
    · rw [if_neg (by simp [hhdr])]
      split <;> split <;> rfl
    · rw [if_pos hhdr, if_neg (by simp [hr])]
      split <;> split <;> rfl

def wRespNoReset : HttpResponse :=
  { StatusCode := 200
    Header := [("X-Rate-Limit-Limit", ["600"]), ("X-Rate-Limit-Remaining", ["0"])] }

def wClientZeroReset : Client :=
  { apiToken := "tok"
    rateLimits := fun _ => { Limit := 600, Remaining := 0, Reset := {} } }

theorem checkRateLimit_none_when_reset_zero_witness :
    (wClientZeroReset.rateLimits 3).Reset.Time = zeroTimeUnix ∧
    zeroTimeUnix ≤ (1600000000 : Int) ∧
    checkRateLimitBeforeDo wClientZeroReset wReq 3 1600000000 = none ∧
    headerGet wRespNoReset.Header headerRateReset = "" ∧
    (parseRate wRespNoReset).Reset.Time = zeroTimeUnix :=
  ⟨by decide, by decide,
    (checkRateLimit_none_when_reset_zero wClientZeroReset wReq 3 1600000000
      (by decide) (by decide)).1,
    by decide,
    (checkRateLimit_none_when_reset_zero wClientZeroReset wReq 3 1600000000
      (by decide) (by decide)).2.1 wRespNoReset (by decide)⟩

/-! ### Claim C2: parsing of the Link header's next/prev relations -/

/-- A response whose `Link` header holds the single comma-joined value of
the claim. -/
def wCommaLinkResp : HttpResponse :=
  { Status := "OK"
    StatusCode := 200
    Header := [("Link", ["<https://x/a>; rel=\"next\", <https://x/b>; rel=\"prev\""])] }

/-- The same two links delivered as two values of the multi-valued `Link`
header, as the Okta API sends them. -/
def wTwoValueLinkResp : HttpResponse :=
  { Status := "OK"
    StatusCode := 200
    Header := [("Link", ["<https://x/a>; rel=\"next\"", "<https://x/b>; rel=\"prev\""])] }

/-- C2 counterexample: on the single comma-joined `Link` value the parser,
which splits on semicolons only, does not produce
`Next = "https://x/a"` and `Prev = "https://x/b"`. -/
theorem populatePageValues_comma_joined_counterexample :
    ¬ ((populatePageValues wCommaLinkResp).Next = "https://x/a" ∧
       (populatePageValues wCommaLinkResp).Prev = "https://x/b") := by
  decide

/-- C2 (amended): when the two links arrive as two separate `Link` header
values, `populatePageValues` yields `Next = "https://x/a"` and
`Prev = "https://x/b"`; on the comma-joined single value of the original
claim it instead yields `Next = ""` and `Prev = "https://x/a"` (the
trailing `rel="prev"` segment binds the only URL the value's first
segment supplied). -/
theorem populatePageValues_link_values :
    (populatePageValues wTwoValueLinkResp).Next = "https://x/a" ∧
    (populatePageValues wTwoValueLinkResp).Prev = "https://x/b" ∧
    (populatePageValues wCommaLinkResp).Next = "" ∧
    (populatePageValues wCommaLinkResp).Prev = "https://x/a" := by
  decide

/-! ### Claim C6: malformed Link values are skipped without side
effects -/

/-- C6: a `Link` header value whose first segment is not wrapped in
angle brackets is skipped silently: removing it from the header's value
list changes nothing about how the other values are parsed (and parsing
never fails — `populatePageValues` is total). -/
theorem malformed_link_value_skipped
    (pre post : List String) (v : String)
    (h : ¬ (strHasPre ((splitChar (goTrimSpace v) ';').headD "") "<" = true ∧
            strHasSuf ((splitChar (goTrimSpace v) ';').headD "") ">" = true)) :
    populatePageValues { Header := [("Link", pre ++ v :: post)] } =
    populatePageValues { Header := [("Link", pre ++ post)] } := by
  have key : ∀ p : Pagination, processLinkValue p v = p := by
    intro p
    simp only [processLinkValue]
    cases hseg : splitChar (goTrimSpace v) ';' with
    | nil => rfl
    | cons seg0 rest =>
      rw [hseg] at h
      simp only [List.headD_cons] at h
      have hb : (strHasPre seg0 "<" && strHasSuf seg0 ">") = false := by
        cases hp : strHasPre seg0 "<" <;> cases hs : strHasSuf seg0 ">" <;> simp_all
      simp [hb]
  simp only [populatePageValues, headerValues, List.find?, decide_True]
  rw [List.foldl_append, List.foldl_append, List.foldl_cons, key]

theorem malformed_link_value_skipped_witness :
    (¬ (strHasPre ((splitChar (goTrimSpace "https://x/bad; rel=\"prev\"") ';').headD "")
          "<" = true ∧
        strHasSuf ((splitChar (goTrimSpace "https://x/bad; rel=\"prev\"") ';').headD "")
          ">" = true)) ∧
    populatePageValues
        { Header := [("Link",
            ["<https://x/a>; rel=\"next\"", "https://x/bad; rel=\"prev\"",
             "<https://x/c>; rel=\"self\""])] } =
      populatePageValues
        { Header := [("Link",
            ["<https://x/a>; rel=\"next\"", "<https://x/c>; rel=\"self\""])] } :=
  ⟨by decide,
    malformed_link_value_skipped ["<https://x/a>; rel=\"next\""]
      ["<https://x/c>; rel=\"self\""] "https://x/bad; rel=\"prev\"" (by decide)⟩

/-! ### Claim C10: the rate table is only written after a successful
transport call -/

/-- C10: when the preemptive check short-circuits, and when the transport
returns an error (cancellation included), the stored rate of every
category is unchanged by the call to `Do`. -/
theorem do_rate_table_frame
    (c : Client) (ctx : Ctx) (req : HttpRequest) (v : DecodeTarget)
    (tr : Except TransportError HttpResponse) (now : Int)
    (h : ((c.rateLimits ctx.category).Remaining = 0 ∧
          now < (c.rateLimits ctx.category).Reset.Time) ∨
         (∃ te, tr = .error te)) :
    ∀ cat, (Do c ctx req v tr now).client.rateLimits cat = c.rateLimits cat := by
  intro cat
  simp only [Do]
  split
  · rfl
  next hnone =>
    rcases h with hshort | ⟨te, rfl⟩
    · refine absurd hnone ?_
      unfold checkRateLimitBeforeDo
      rw [if_pos hshort]
      simp
    · dsimp only
      split <;> rfl

/-! ### Claim C4: a successful response's rate headers land in the
table -/

/-- A fresh client whose whole rate table is at the zero value (as after
`NewClient`), so the preemptive check cannot fire at any modern time. -/
def wClientFresh : Client := { apiToken := "tok" }

def wRespRate : HttpResponse :=
  { Status := "OK"
    StatusCode := 200
    Header := [("X-Rate-Limit-Limit", ["600"]),
               ("X-Rate-Limit-Remaining", ["599"]),
               ("X-Rate-Limit-Reset", ["1700000300"])] }

/-- C4: for every category and every response carrying the rate-limit
headers, when the preemptive check passes and the network call succeeds,
the stored rate for the call's category after `Do` is exactly what
`parseRate` extracts from the `X-Rate-Limit-Limit`,
`X-Rate-Limit-Remaining` and `X-Rate-Limit-Reset` headers. -/
theorem do_stores_parsed_rate
    (c : Client) (ctx : Ctx) (req : HttpRequest) (v : DecodeTarget)
    (resp : HttpResponse) (now : Int)
    (hcheck : ¬ ((c.rateLimits ctx.category).Remaining = 0 ∧
                 now < (c.rateLimits ctx.category).Reset.Time))
    (hl : headerGet resp.Header headerRateLimit ≠ "")
    (hr : headerGet resp.Header headerRateRemaining ≠ "")
    (hres : headerGet resp.Header headerRateReset ≠ "") :
    (Do c ctx req v (.ok resp) now).client.rateLimits ctx.category = parseRate resp := by
  have hnone : checkRateLimitBeforeDo c
      { req with Header := headerSet req.Header "Authorization" ("SSWS " ++ c.apiToken) }
      ctx.category now = none := by
    unfold checkRateLimitBeforeDo
    rw [if_neg hcheck]
  simp only [Do, hnone]
  split <;> simp

theorem do_stores_parsed_rate_witness :
    (¬ ((wClientFresh.rateLimits wCtx.category).Remaining = 0 ∧
        (1600000000 : Int) < (wClientFresh.rateLimits wCtx.category).Reset.Time)) ∧
    headerGet wRespRate.Header headerRateLimit ≠ "" ∧
    headerGet wRespRate.Header headerRateRemaining ≠ "" ∧
    headerGet wRespRate.Header headerRateReset ≠ "" ∧
    (Do wClientFresh wCtx wReq .noTarget (.ok wRespRate) 1600000000).client.rateLimits
        wCtx.category = parseRate wRespRate :=
  ⟨by decide, by decide, by decide, by decide,
    do_stores_parsed_rate wClientFresh wCtx wReq .noTarget wRespRate 1600000000
      (by decide) (by decide) (by decide) (by decide)⟩

/-! ### Claim C7: an empty 2xx body with a decode target is no error -/

/-- C7: on a success status in 200–299 with an empty body and a non-nil
JSON decode target, `Do` returns no error — the decoder's end-of-input
error is swallowed. -/
theorem do_empty_body_no_error
    (c : Client) (ctx : Ctx) (req : HttpRequest) (resp : HttpResponse) (now : Int)
    (hcheck : ¬ ((c.rateLimits ctx.category).Remaining = 0 ∧
                 now < (c.rateLimits ctx.category).Reset.Time))
    (hstatus : 200 ≤ resp.StatusCode ∧ resp.StatusCode ≤ 299)
    (hbody : resp.Body = .empty) :
    (Do c ctx req .jsonValue (.ok resp) now).err = none := by
  have hnone : checkRateLimitBeforeDo c
      { req with Header := headerSet req.Header "Authorization" ("SSWS " ++ c.apiToken) }
      ctx.category now = none := by
    unfold checkRateLimitBeforeDo
    rw [if_neg hcheck]
  have hresp : checkResponseForErrors resp = none := by
    unfold checkResponseForErrors
    rw [if_pos hstatus]
  simp only [Do, hnone, hresp, hbody]
  rfl

def wRespEmpty : HttpResponse := { Status := "OK", StatusCode := 200, Body := .empty }

theorem do_empty_body_no_error_witness :
    (¬ ((wClientFresh.rateLimits wCtx.category).Remaining = 0 ∧
        (1600000000 : Int) < (wClientFresh.rateLimits wCtx.category).Reset.Time)) ∧
    (200 ≤ wRespEmpty.StatusCode ∧ wRespEmpty.StatusCode ≤ 299) ∧
    wRespEmpty.Body = .empty ∧
    (Do wClientFresh wCtx wReq .jsonValue (.ok wRespEmpty) 1600000000).err = none :=
  ⟨by decide, by decide, rfl,
    do_empty_body_no_error wClientFresh wCtx wReq wRespEmpty 1600000000
      (by decide) (by decide) rfl⟩

/-! ### Claim C8: the context's error is preferred over the transport
error -/

/-- C8: when the transport returns an error and the caller's context has
been cancelled or its deadline reached (its done channel has fired), `Do`
returns the context's error — never the raw transport error. -/
theorem do_prefers_context_error
    (c : Client) (ctx : Ctx) (req : HttpRequest) (v : DecodeTarget)
    (te : TransportError) (now : Int)
    (hcheck : ¬ ((c.rateLimits ctx.category).Remaining = 0 ∧
                 now < (c.rateLimits ctx.category).Reset.Time))
    (hdone : ctx.done = true) :
    (Do c ctx req v (.error te) now).err = some (.ctxError ctx.errKind) ∧
    (Do c ctx req v (.error te) now).err ≠ some (.transport te) ∧
    (Do c ctx req v (.error te) now).resp = none := by
  have hnone : checkRateLimitBeforeDo c
      { req with Header := headerSet req.Header "Authorization" ("SSWS " ++ c.apiToken) }
      ctx.category now = none := by
    unfold checkRateLimitBeforeDo
    rw [if_neg hcheck]
  simp only [Do, hnone, hdone]
  exact ⟨rfl, by simp, rfl⟩

def wCtxDone : Ctx := { category := 2, done := true }

theorem do_prefers_context_error_witness :
    (¬ ((wClientFresh.rateLimits wCtxDone.category).Remaining = 0 ∧
        (1600000000 : Int) < (wClientFresh.rateLimits wCtxDone.category).Reset.Time)) ∧
    wCtxDone.done = true ∧
    ((Do wClientFresh wCtxDone wReq .noTarget (.error { message := "conn reset" })
        1600000000).err = some (.ctxError wCtxDone.errKind) ∧
     (Do wClientFresh wCtxDone wReq .noTarget (.error { message := "conn reset" })
        1600000000).err ≠ some (.transport { message := "conn reset" }) ∧
     (Do wClientFresh wCtxDone wReq .noTarget (.error { message := "conn reset" })
        1600000000).resp = none) :=
  ⟨by decide, rfl,
    do_prefers_context_error wClientFresh wCtxDone wReq .noTarget
      { message := "conn reset" } 1600000000 (by decide) rfl⟩

/-! ### Claim C3: status classification of non-2xx responses -/

lemma unmarshalErrorField_keeps_Response (er : ErrorResponse) (kv : String × Json) :
    (unmarshalErrorField er kv).Response = er.Response := by
  unfold unmarshalErrorField
  split <;> rfl

lemma unmarshalErrorResponse_keeps_Response (b : BodyContent) (init : ErrorResponse) :
    (unmarshalErrorResponse b init).Response = init.Response := by
  unfold unmarshalErrorResponse
  split
  next fs =>
    induction fs generalizing init with
    | nil => rfl
    | cons kv rest ih =>
      rw [List.foldl_cons, ih, unmarshalErrorField_keeps_Response]
  next => rfl

/-- C3: a status in 200–299 classifies as no error; outside that range, a
403 whose `X-Rate-Limit-Remaining` header equals `"0"` classifies as a
rate-limit error carrying the rate parsed from the response headers and
the raw response, and any other non-2xx status classifies as an API error
built by unmarshalling the JSON body over the raw response (so a 404 with
body `{"errorCode":"E1",...}` exposes `Code = "E1"`). -/
theorem checkResponseForErrors_classification (r : HttpResponse) :
    (200 ≤ r.StatusCode ∧ r.StatusCode ≤ 299 → checkResponseForErrors r = none) ∧
    (¬ (200 ≤ r.StatusCode ∧ r.StatusCode ≤ 299) →
      (r.StatusCode = 403 ∧ headerGet r.Header headerRateRemaining = "0" →
        checkResponseForErrors r =
          some (.rateLimit { Rate := parseRate r, Response := r })) ∧
      (¬ (r.StatusCode = 403 ∧ headerGet r.Header headerRateRemaining = "0") →
        checkResponseForErrors r =
          some (.api (unmarshalErrorResponse r.Body { Response := r })))) := by
  constructor
  · intro h2
    unfold checkResponseForErrors
    rw [if_pos h2]
  · intro hno
    constructor
    · intro h403
      simp only [checkResponseForErrors]
      rw [if_neg hno, if_pos h403, unmarshalErrorResponse_keeps_Response]
    · intro hnot
      simp only [checkResponseForErrors]
      rw [if_neg hno, if_neg hnot]

def wResp404 : HttpResponse :=
  { Status := "Not Found"
    StatusCode := 404
    Body := .json (.obj [("errorCode", .str "E1"), ("errorSummary", .str "not found")]) }

def wResp403 : HttpResponse :=
  { Status := "Forbidden"
    StatusCode := 403
    Header := [("X-Rate-Limit-Limit", ["600"]),
               ("X-Rate-Limit-Remaining", ["0"]),
               ("X-Rate-Limit-Reset", ["1700000000"])] }

def wResp200 : HttpResponse := { Status := "OK", StatusCode := 200 }

theorem checkResponseForErrors_classification_witness :
    checkResponseForErrors wResp200 = none ∧
    checkResponseForErrors wResp403 =
      some (.rateLimit { Rate := parseRate wResp403, Response := wResp403 }) ∧
    checkResponseForErrors wResp404 =
      some (.api (unmarshalErrorResponse wResp404.Body { Response := wResp404 })) ∧
    (unmarshalErrorResponse wResp404.Body { Response := wResp404 }).Code = "E1" ∧
    (unmarshalErrorResponse wResp404.Body { Response := wResp404 }).Summary = "not found" :=
  ⟨(checkResponseForErrors_classification wResp200).1 (by decide),
    ((checkResponseForErrors_classification wResp403).2 (by decide)).1 ⟨rfl, rfl⟩,
    ((checkResponseForErrors_classification wResp404).2 (by decide)).2 (by decide),
    rfl, rfl⟩

theorem do_rate_table_frame_witness :
    (((wClient.rateLimits wCtx.category).Remaining = 0 ∧
      (1600000000 : Int) < (wClient.rateLimits wCtx.category).Reset.Time) ∨
     (∃ te, (Except.error {} : Except TransportError HttpResponse) = .error te)) ∧
    (Do wClient wCtx wReq .noTarget (.error {}) 1600000000).client.rateLimits 5 =
      wClient.rateLimits 5 :=
  ⟨Or.inl ⟨by decide, by decide⟩,
    do_rate_table_frame wClient wCtx wReq .noTarget (.error {}) 1600000000
      (Or.inl ⟨by decide, by decide⟩) 5⟩

end Okta
